import Mathlib

/-
Shallow embedding of `masksembles/torch.py`.

Modelling conventions:
* Tensors are embedded as a shape (explicit dimension fields) together with a
  total index function into ℚ.  Python floats are modelled as exact rationals;
  the mask entries are exact 0/1 values, so the multiplications of the forward
  pass are exact.
* The element dtype is tracked symbolically (`DType`): `.double()` stores the
  masks as float64, multiplication promotes, and the final `.float()` call
  casts to float32.  Value-level rounding of the casts is not modelled.
* Fallible torch/numpy operations return `Option`/`Except`: `torch.split`
  with a zero split size on a nonempty dimension, `torch.cat` on an empty
  sequence or on mismatched non-cat dimensions, and broadcasting of
  incompatible dimensions all yield `none`; the Python `ZeroDivisionError`
  (from `1 / scale`) and the numpy rejection of negative dimensions in
  `np.zeros` yield `Except.error`.
* The external mask generator `masksembles.common` is not part of the given
  sources; constructors take it as an explicit function argument
  `gen : ℕ → ℕ → ℚ → List (List ℚ)` standing for
  `common.generation_wrapper` / `common.generate_masks`.
-/

/-- Torch element dtypes reachable in this code (`.double()`, `.float()`). -/
inductive DType where
  | f32 : DType
  | f64 : DType
deriving DecidableEq

/-- Torch type promotion for the binary multiply, restricted to the float
dtypes occurring here. -/
def DType.promote : DType → DType → DType
  | .f64, _ => .f64
  | _, .f64 => .f64
  | _, _ => .f32

/-- Rank-2 tensor `[d0, d1]`: shape, dtype and a total index function. -/
structure T2 where
  d0 : ℕ
  d1 : ℕ
  dt : DType
  val : ℕ → ℕ → ℚ

/-- Rank-3 tensor `[d0, d1, d2]`. -/
structure T3 where
  d0 : ℕ
  d1 : ℕ
  d2 : ℕ
  dt : DType
  val : ℕ → ℕ → ℕ → ℚ

instance : Inhabited T3 := ⟨⟨0, 0, 0, DType.f32, fun _ _ _ => 0⟩⟩

/-- Rank-4 tensor `[d0, d1, d2, d3]` (the `(N, C, H, W)` inputs). -/
structure T4 where
  d0 : ℕ
  d1 : ℕ
  d2 : ℕ
  d3 : ℕ
  dt : DType
  val : ℕ → ℕ → ℕ → ℕ → ℚ

/-- Rank-5 tensor `[d0, d1, d2, d3, d4]`. -/
structure T5 where
  d0 : ℕ
  d1 : ℕ
  d2 : ℕ
  d3 : ℕ
  d4 : ℕ
  dt : DType
  val : ℕ → ℕ → ℕ → ℕ → ℕ → ℚ

instance : Inhabited T5 := ⟨⟨0, 0, 0, 0, 0, DType.f32, fun _ _ _ _ _ => 0⟩⟩

/-- A stored mask matrix viewed as a rank-2 tensor (row-major `getD` view). -/
def ofMatrix (m : List (List ℚ)) (dt : DType) : T2 :=
  ⟨m.length, (m.headD []).length, dt, fun i j => (m.getD i []).getD j 0⟩

/-- Materialise a rank-2 tensor as a list-of-rows matrix. -/
def T2.toMatrix (t : T2) : List (List ℚ) :=
  (List.range t.d0).map fun i => (List.range t.d1).map fun j => t.val i j

/-- `inputs.unsqueeze(1)` on a rank-2 tensor: `[N, C] → [N, 1, C]`. -/
def unsq1 (x : T2) : T3 :=
  ⟨x.d0, 1, x.d1, x.dt, fun i _ k => x.val i k⟩

/-- `self.masks.unsqueeze(1)`: the stored `[n, C]` masks viewed as `[n, 1, C]`. -/
def maskT3 (m : T2) : T3 :=
  ⟨m.d0, 1, m.d1, m.dt, fun i _ k => m.val i k⟩

/-- `torch.split(t, g, dim=0)` on a rank-3 tensor: chunks of size `g` along
dim 0, the last chunk possibly smaller.  A zero split size is only legal on an
empty dimension. -/
def splitDim0 (g : ℕ) (t : T3) : Option (List T3) :=
  if g = 0 then (if t.d0 = 0 then some [] else none)
  else
    some ((List.range ((t.d0 + g - 1) / g)).map fun j =>
      ⟨min g (t.d0 - j * g), t.d1, t.d2, t.dt, fun a b c => t.val (j * g + a) b c⟩)

/-- Index function of a concatenation along dim 1: walk the pieces, consuming
their `d1` extents. -/
def catVal : List T3 → ℕ → ℕ → ℕ → ℚ
  | [], _, _, _ => 0
  | t :: ts, a, b, c => if b < t.d1 then t.val a b c else catVal ts a (b - t.d1) c

/-- `torch.cat(ts, dim=1)` on rank-3 tensors: requires a nonempty sequence and
equal non-cat dimensions. -/
def catDim1 (ts : List T3) : Option T3 :=
  if ts.isEmpty then none
  else if ∀ s ∈ ts, s.d0 = (ts.headD default).d0 ∧ s.d2 = (ts.headD default).d2 then
    some ⟨(ts.headD default).d0, (ts.map T3.d1).sum, (ts.headD default).d2,
      (ts.headD default).dt, catVal ts⟩
  else none

/-- `x.permute([1, 0, 2])`. -/
def permute102 (t : T3) : T3 :=
  ⟨t.d1, t.d0, t.d2, t.dt, fun i a c => t.val a i c⟩

/-- Broadcast of one dimension pair: equal sizes, or one of them is 1. -/
def bdim (a b : ℕ) : Option ℕ :=
  if a = b then some a else if a = 1 then some b else if b = 1 then some a else none

/-- Index adjustment for a broadcast dimension of original extent `d`. -/
def bidx (d i : ℕ) : ℕ :=
  if d = 1 then 0 else i

/-- Broadcasting elementwise multiplication of two rank-3 tensors, with torch
type promotion. -/
def mulT3 (x y : T3) : Option T3 :=
  (bdim x.d0 y.d0).bind fun a =>
  (bdim x.d1 y.d1).bind fun b =>
  (bdim x.d2 y.d2).bind fun c =>
  some ⟨a, b, c, DType.promote x.dt y.dt, fun i j k =>
    x.val (bidx x.d0 i) (bidx x.d1 j) (bidx x.d2 k) *
    y.val (bidx y.d0 i) (bidx y.d1 j) (bidx y.d2 k)⟩

/-- `x.squeeze(0)` on a rank-3 tensor whose leading dimension is 1 (the only
way it is reached in the forward pass). -/
def squeeze0 (t : T3) : T2 :=
  ⟨t.d1, t.d2, t.dt, fun b c => t.val 0 b c⟩

/-- `.float()`: cast to float32 (values kept exact in this model). -/
def T2.tofloat (t : T2) : T2 :=
  ⟨t.d0, t.d1, DType.f32, t.val⟩

/-- The rank-1 forward pass (`Masksembles1D.forward`, also used verbatim by
`Masksembles1DDynamicSize.forward`):

    batch = inputs.shape[0]
    x = torch.split(inputs.unsqueeze(1), batch // self.n, dim=0)
    x = torch.cat(x, dim=1).permute([1, 0, 2])
    x = x * self.masks.unsqueeze(1)
    x = torch.cat(torch.split(x, 1, dim=0), dim=1)
    return x.squeeze(0).float()

`n = 0` makes `batch // self.n` a `ZeroDivisionError`. -/
def forwardPipe1 (n : ℕ) (m x : T2) : Option T2 :=
  if n = 0 then none
  else
    (splitDim0 (x.d0 / n) (unsq1 x)).bind fun cs =>
    (catDim1 cs).bind fun a =>
    (mulT3 (permute102 a) (maskT3 m)).bind fun c =>
    (splitDim0 1 c).bind fun ds =>
    (catDim1 ds).bind fun e =>
    some (squeeze0 e).tofloat

/-- `inputs.unsqueeze(1)` on a rank-4 tensor: `[N, C, H, W] → [N, 1, C, H, W]`. -/
def unsq1R4 (x : T4) : T5 :=
  ⟨x.d0, 1, x.d1, x.d2, x.d3, x.dt, fun i _ k h w => x.val i k h w⟩

/-- `self.masks.unsqueeze(1).unsqueeze(-1).unsqueeze(-1)`: the `[n, C]` masks
viewed as `[n, 1, C, 1, 1]`. -/
def maskT5 (m : T2) : T5 :=
  ⟨m.d0, 1, m.d1, 1, 1, m.dt, fun i _ k _ _ => m.val i k⟩

/-- `torch.split(t, g, dim=0)` on a rank-5 tensor. -/
def splitDim0R5 (g : ℕ) (t : T5) : Option (List T5) :=
  if g = 0 then (if t.d0 = 0 then some [] else none)
  else
    some ((List.range ((t.d0 + g - 1) / g)).map fun j =>
      ⟨min g (t.d0 - j * g), t.d1, t.d2, t.d3, t.d4, t.dt,
        fun a b c h w => t.val (j * g + a) b c h w⟩)

/-- Index function of a rank-5 concatenation along dim 1. -/
def catValR5 : List T5 → ℕ → ℕ → ℕ → ℕ → ℕ → ℚ
  | [], _, _, _, _, _ => 0
  | t :: ts, a, b, c, h, w =>
    if b < t.d1 then t.val a b c h w else catValR5 ts a (b - t.d1) c h w

/-- `torch.cat(ts, dim=1)` on rank-5 tensors. -/
def catDim1R5 (ts : List T5) : Option T5 :=
  if ts.isEmpty then none
  else if ∀ s ∈ ts, s.d0 = (ts.headD default).d0 ∧ s.d2 = (ts.headD default).d2 ∧
      s.d3 = (ts.headD default).d3 ∧ s.d4 = (ts.headD default).d4 then
    some ⟨(ts.headD default).d0, (ts.map T5.d1).sum, (ts.headD default).d2,
      (ts.headD default).d3, (ts.headD default).d4, (ts.headD default).dt, catValR5 ts⟩
  else none

/-- `x.permute([1, 0, 2, 3, 4])`. -/
def permute10234 (t : T5) : T5 :=
  ⟨t.d1, t.d0, t.d2, t.d3, t.d4, t.dt, fun i a c h w => t.val a i c h w⟩

/-- Broadcasting elementwise multiplication of two rank-5 tensors. -/
def mulT5 (x y : T5) : Option T5 :=
  (bdim x.d0 y.d0).bind fun a =>
  (bdim x.d1 y.d1).bind fun b =>
  (bdim x.d2 y.d2).bind fun c =>
  (bdim x.d3 y.d3).bind fun d =>
  (bdim x.d4 y.d4).bind fun e =>
  some ⟨a, b, c, d, e, DType.promote x.dt y.dt, fun i j k h w =>
    x.val (bidx x.d0 i) (bidx x.d1 j) (bidx x.d2 k) (bidx x.d3 h) (bidx x.d4 w) *
    y.val (bidx y.d0 i) (bidx y.d1 j) (bidx y.d2 k) (bidx y.d3 h) (bidx y.d4 w)⟩

/-- `x.squeeze(0)` on a rank-5 tensor whose leading dimension is 1. -/
def squeeze0R5 (t : T5) : T4 :=
  ⟨t.d1, t.d2, t.d3, t.d4, t.dt, fun b c h w => t.val 0 b c h w⟩

/-- `.float()` on a rank-4 tensor. -/
def T4.tofloat (t : T4) : T4 :=
  ⟨t.d0, t.d1, t.d2, t.d3, DType.f32, t.val⟩

/-- The rank-2 forward pass (`Masksembles2D.forward`, also used verbatim by
`Masksembles2DDynamicSize.forward`):

    batch = inputs.shape[0]
    x = torch.split(inputs.unsqueeze(1), batch // self.n, dim=0)
    x = torch.cat(x, dim=1).permute([1, 0, 2, 3, 4])
    x = x * self.masks.unsqueeze(1).unsqueeze(-1).unsqueeze(-1)
    x = torch.cat(torch.split(x, 1, dim=0), dim=1)
    return x.squeeze(0).float() -/
def forwardPipe2 (n : ℕ) (m : T2) (x : T4) : Option T4 :=
  if n = 0 then none
  else
    (splitDim0R5 (x.d0 / n) (unsq1R4 x)).bind fun cs =>
    (catDim1R5 cs).bind fun a =>
    (mulT5 (permute10234 a) (maskT5 m)).bind fun c =>
    (splitDim0R5 1 c).bind fun ds =>
    (catDim1R5 ds).bind fun e =>
    some (squeeze0R5 e).tofloat

/-- `np.zeros([n, size])` as a list-of-rows matrix. -/
def zerosMatrix (n size : ℕ) : List (List ℚ) :=
  List.replicate n (List.replicate size 0)

/-- `np.ones([n, size])` as a list-of-rows matrix. -/
def onesMatrix (n size : ℕ) : List (List ℚ) :=
  List.replicate n (List.replicate size 1)

/-- `np.logical_or(a, b)` of two mask rows, written back into a float row
(`True`/`False` become 1/0). -/
def orRow (a b : List ℚ) : List ℚ :=
  List.zipWith (fun x y => if x ≠ 0 ∨ y ≠ 0 then (1 : ℚ) else 0) a b

/-- Tail of the in-place nesting loop: each row is OR-ed with the already
updated previous row. -/
def nestedGo (prev : List ℚ) : List (List ℚ) → List (List ℚ)
  | [] => []
  | r :: rs => orRow r prev :: nestedGo (orRow r prev) rs

/-- The in-place loop

    for i in range(1, n):
        masks[i] = np.logical_or(masks[i], masks[i - 1])

expressed as a pure fold over the rows (row 0 is untouched; `masks[i - 1]` is
the row updated by the previous iteration). -/
def nestedMasks : List (List ℚ) → List (List ℚ)
  | [] => []
  | r :: rs => r :: nestedGo r rs

/-- Python-level errors that construction can actually raise. -/
inductive PyError where
  | zeroDivision : PyError
  | negativeDimension : PyError
deriving DecidableEq

/-- Python `int(...)`: truncation toward zero. -/
def pyInt (q : ℚ) : ℤ :=
  if 0 ≤ q then ⌊q⌋ else ⌈q⌉

/-- `int(channels * scale * (1 - (1 - 1 / scale) ** n))`, the
`expected_size` of the dynamic-size variants (float arithmetic modelled as
exact rationals; the caller guards `scale ≠ 0`). -/
def expectedSize (channels n : ℕ) (scale : ℚ) : ℤ :=
  pyInt ((channels : ℚ) * scale * (1 - (1 - 1 / scale) ^ n))

/-- The fixed-size 1D layer (`Masksembles1D`): its configuration and the
stored mask matrix. -/
structure Masksembles1D where
  channels : ℕ
  n : ℕ
  scale : ℚ
  masks : List (List ℚ)

/-- `Masksembles1D.__init__`.  With `generate_masks` it either bypasses the
generator at `scale == 1` (all-ones masks) or calls it, then optionally runs
the nesting loop; otherwise it stores `np.zeros([n, channels])`.  The source
performs no parameter validation, and with natural-number sizes none of the
called numpy operations can fail, so construction is total. -/
def Masksembles1D.init (channels n : ℕ) (scale : ℚ)
    (gen : ℕ → ℕ → ℚ → List (List ℚ)) (generate_masks nested_masks : Bool) :
    Masksembles1D :=
  if generate_masks then
    let raw := if scale = 1 then onesMatrix n channels else gen channels n scale
    ⟨channels, n, scale, if nested_masks then nestedMasks raw else raw⟩
  else
    ⟨channels, n, scale, zerosMatrix n channels⟩

/-- `Masksembles1D.forward`; the stored masks are float64 (`.double()`). -/
def Masksembles1D.forward (m : Masksembles1D) (x : T2) : Option T2 :=
  forwardPipe1 m.n (ofMatrix m.masks DType.f64) x

/-- `Masksembles1D.forward` evaluated to a matrix, for concrete checks. -/
def Masksembles1D.forwardMatrix (m : Masksembles1D) (x : T2) :
    Option (List (List ℚ)) :=
  (m.forward x).map T2.toMatrix

/-- The fixed-size 2D layer (`Masksembles2D`). -/
structure Masksembles2D where
  channels : ℕ
  n : ℕ
  scale : ℚ
  masks : List (List ℚ)

/-- `Masksembles2D.__init__`: like the 1D variant but without the
`scale == 1` bypass — the generator is always invoked. -/
def Masksembles2D.init (channels n : ℕ) (scale : ℚ)
    (gen : ℕ → ℕ → ℚ → List (List ℚ)) (generate_masks nested_masks : Bool) :
    Masksembles2D :=
  if generate_masks then
    let raw := gen channels n scale
    ⟨channels, n, scale, if nested_masks then nestedMasks raw else raw⟩
  else
    ⟨channels, n, scale, zerosMatrix n channels⟩

/-- `Masksembles2D.forward`; the stored masks are float64 (`.double()`). -/
def Masksembles2D.forward (m : Masksembles2D) (x : T4) : Option T4 :=
  forwardPipe2 m.n (ofMatrix m.masks DType.f64) x

/-- The dynamic-size 1D layer (`Masksembles1DDynamicSize`). -/
structure Masksembles1DDynamicSize where
  channels : ℕ
  n : ℕ
  scale : ℚ
  expected_size : ℤ
  masks : List (List ℚ)

/-- `Masksembles1DDynamicSize.__init__`.  `1 / scale` raises
`ZeroDivisionError` at `scale == 0`; with `generate_masks=False`,
`np.zeros([n, expected_size])` rejects a negative `expected_size`.  No other
validation exists in the source. -/
def Masksembles1DDynamicSize.init (channels n : ℕ) (scale : ℚ)
    (gen : ℕ → ℕ → ℚ → List (List ℚ)) (generate_masks : Bool) :
    Except PyError Masksembles1DDynamicSize :=
  if scale = 0 then .error .zeroDivision
  else
    let es := expectedSize channels n scale
    if generate_masks then
      .ok ⟨channels, n, scale, es, gen channels n scale⟩
    else
      if es < 0 then .error .negativeDimension
      else .ok ⟨channels, n, scale, es, zerosMatrix n es.toNat⟩

/-- `Masksembles1DDynamicSize.forward` (same pipeline as the fixed 1D one). -/
def Masksembles1DDynamicSize.forward (m : Masksembles1DDynamicSize) (x : T2) :
    Option T2 :=
  forwardPipe1 m.n (ofMatrix m.masks DType.f64) x

/-- The dynamic-size 2D layer (`Masksembles2DDynamicSize`). -/
structure Masksembles2DDynamicSize where
  channels : ℕ
  n : ℕ
  scale : ℚ
  expected_size : ℤ
  masks : List (List ℚ)

/-- `Masksembles2DDynamicSize.__init__` (same body as the 1D dynamic one). -/
def Masksembles2DDynamicSize.init (channels n : ℕ) (scale : ℚ)
    (gen : ℕ → ℕ → ℚ → List (List ℚ)) (generate_masks : Bool) :
    Except PyError Masksembles2DDynamicSize :=
  if scale = 0 then .error .zeroDivision
  else
    let es := expectedSize channels n scale
    if generate_masks then
      .ok ⟨channels, n, scale, es, gen channels n scale⟩
    else
      if es < 0 then .error .negativeDimension
      else .ok ⟨channels, n, scale, es, zerosMatrix n es.toNat⟩

/-- `Masksembles2DDynamicSize.forward` (same pipeline as the fixed 2D one). -/
def Masksembles2DDynamicSize.forward (m : Masksembles2DDynamicSize) (x : T4) :
    Option T4 :=
  forwardPipe2 m.n (ofMatrix m.masks DType.f64) x

/-- Concrete fixtures used by the witness theorems below. -/
def exGen : ℕ → ℕ → ℚ → List (List ℚ) := fun _ _ _ => [[1]]

def exGenNested : ℕ → ℕ → ℚ → List (List ℚ) := fun _ _ _ => [[1, 0], [0, 0], [0, 1]]

def exMasks1 : Masksembles1D := ⟨2, 2, 2, [[1, 0], [0, 1]]⟩

def exInput1 : T2 := ⟨4, 2, DType.f32, fun _ _ => 1⟩

def exInput1odd : T2 := ⟨3, 2, DType.f32, fun _ _ => 1⟩

def exMasks2 : Masksembles2D := ⟨1, 2, 2, [[0], [1]]⟩

def exInput2 : T4 := ⟨2, 1, 3, 3, DType.f32, fun _ _ _ _ => 1⟩

def exMasksTiny : Masksembles1D := ⟨1, 1, 1, [[1]]⟩

def exInputF64 : T2 := ⟨1, 1, DType.f64, fun _ _ => 1⟩

theorem getD_map_range {α : Type _} (f : ℕ → α) (d : α) {j k : ℕ} (h : j < k) :
    ((List.range k).map f).getD j d = f j := by
  have hl : j < ((List.range k).map f).length := by simpa using h
  rw [List.getD_eq_getElem _ _ hl]
  simp

theorem headD_map_range {α : Type _} (f : ℕ → α) (d : α) {k : ℕ} (h : 0 < k) :
    ((List.range k).map f).headD d = f 0 := by
  obtain ⟨k', rfl⟩ : ∃ k', k = k' + 1 := ⟨k - 1, by omega⟩
  rw [List.range_succ_eq_map]
  simp

theorem catVal_uniform {w : ℕ} (hw : 0 < w) :
    ∀ (ts : List T3), (∀ t ∈ ts, t.d1 = w) → ∀ (a b c : ℕ), b < ts.length * w →
      catVal ts a b c = (ts.getD (b / w) default).val a (b % w) c := by
  intro ts
  induction ts with
  | nil => intro _ a b c hb; simp at hb
  | cons t ts ih =>
    intro hts a b c hb
    have ht : t.d1 = w := hts t (by simp)
    by_cases hbw : b < w
    · rw [catVal, if_pos (by omega)]
      rw [Nat.div_eq_of_lt hbw, Nat.mod_eq_of_lt hbw]
      simp
    · rw [catVal, if_neg (by omega)]
      have hw' : w ≤ b := by omega
      have hb' : b - w < ts.length * w := by
        simp only [List.length_cons, Nat.succ_mul] at hb
        omega
      rw [ht, ih (fun t' ht' => hts t' (by simp [ht'])) a (b - w) c hb']
      have hdiv : b / w = (b - w) / w + 1 := Nat.div_eq_sub_div hw hw'
      have hmod : b % w = (b - w) % w := Nat.mod_eq_sub_mod hw'
      rw [hdiv, hmod]
      simp

theorem bdim_self (a : ℕ) : bdim a a = some a := by simp [bdim]

theorem bdim_one_right (a : ℕ) : bdim a 1 = some a := by
  by_cases h : a = 1 <;> simp [bdim, h]

theorem bidx_of_lt {d i : ℕ} (h : i < d) : bidx d i = i := by
  by_cases hd : d = 1
  · subst hd
    have hi : i = 0 := by omega
    subst hi
    simp [bidx]
  · simp [bidx, hd]

theorem catDim1_map_range (k : ℕ) (hk : 0 < k) (f : ℕ → T3) (d0 d2 : ℕ)
    (h0 : ∀ j < k, (f j).d0 = d0) (h2 : ∀ j < k, (f j).d2 = d2) :
    catDim1 ((List.range k).map f) =
      some ⟨d0, (((List.range k).map f).map T3.d1).sum, d2, (f 0).dt,
        catVal ((List.range k).map f)⟩ := by
  have hne : ((List.range k).map f).isEmpty = false := by
    simp [List.isEmpty_eq_false, List.map_eq_nil_iff, List.range_eq_nil]
    omega
  have hhead : ((List.range k).map f).headD default = f 0 := headD_map_range f default hk
  rw [catDim1, hne]
  simp only [Bool.false_eq_true, if_false, hhead]
  rw [if_pos]
  · simp [h0 0 hk, h2 0 hk]
  · intro s hs
    simp only [List.mem_map, List.mem_range] at hs
    obtain ⟨j, hj, rfl⟩ := hs
    simp [h0 j hj, h2 j hj, h0 0 hk, h2 0 hk]

theorem mulT3_eq (x y : T3) (h0 : y.d0 = x.d0) (h1 : y.d1 = 1) (h2 : y.d2 = x.d2) :
    mulT3 x y = some ⟨x.d0, x.d1, x.d2, DType.promote x.dt y.dt, fun i j k =>
      x.val (bidx x.d0 i) (bidx x.d1 j) (bidx x.d2 k) *
      y.val (bidx y.d0 i) (bidx y.d1 j) (bidx y.d2 k)⟩ := by
  rw [mulT3, h0, h1, h2, bdim_self, Option.some_bind, bdim_one_right,
    Option.some_bind, bdim_self, Option.some_bind]

theorem mulT3_none_d0 (x y : T3) (h : bdim x.d0 y.d0 = none) : mulT3 x y = none := by
  rw [mulT3, h]
  rfl

theorem forwardPipe1_some (n : ℕ) (m x : T2)
    (hN : 1 ≤ x.d0) (hdvd : n ∣ x.d0) (hm0 : m.d0 = n) (hm1 : m.d1 = x.d1) :
    ∃ out, forwardPipe1 n m x = some out ∧ out.d0 = x.d0 ∧ out.d1 = x.d1 ∧
      out.dt = DType.f32 ∧
      ∀ j, j < x.d0 → ∀ k, k < x.d1 →
        out.val j k = x.val j k * m.val (j / (x.d0 / n)) k := by
  obtain ⟨N, C, xdt, xval⟩ := x
  obtain ⟨md0, md1, mdt, mval⟩ := m
  simp only at hN hdvd hm0 hm1 ⊢
  have hm0' := hm0.symm
  have hm1' := hm1.symm
  subst hm0' hm1'
  have hn : n ≠ 0 := by
    rintro rfl
    have := Nat.eq_zero_of_zero_dvd hdvd
    omega
  set g := N / n with hgdef
  have hNg : N = n * g := (Nat.mul_div_cancel' hdvd).symm
  have hNg2 : N = g * n := by rw [hNg, Nat.mul_comm]
  have hg : 0 < g := by
    rcases Nat.eq_zero_or_pos g with h | h
    · rw [h, Nat.mul_zero] at hNg; omega
    · exact h
  have hn1 : 0 < n := by omega
  set x2 : T2 := ⟨N, C, xdt, xval⟩ with hx2
  set m2 : T2 := ⟨n, C, mdt, mval⟩ with hm2
  -- stage 1: split the unsqueezed input into n chunks of g rows each
  set f1 : ℕ → T3 := fun j =>
    ⟨g, 1, C, xdt, fun a b c => xval (j * g + a) c⟩ with hf1
  have hsplit1 : splitDim0 g (unsq1 x2) = some ((List.range n).map f1) := by
    rw [splitDim0, if_neg (by omega)]
    have hk1 : ((unsq1 x2).d0 + g - 1) / g = n := by
      show (N + g - 1) / g = n
      have h1 : N + g - 1 = g * n + (g - 1) := by omega
      rw [h1, Nat.mul_add_div hg, Nat.div_eq_of_lt (by omega), Nat.add_zero]
    rw [hk1]
    congr 1
    apply List.map_congr_left
    intro j hj
    rw [List.mem_range] at hj
    have hjg : j * g + g ≤ n * g := by
      have h2 : (j + 1) * g ≤ n * g := Nat.mul_le_mul_right g (by omega)
      rw [Nat.add_one_mul] at h2
      exact h2
    have hmin : min g ((unsq1 x2).d0 - j * g) = g := by
      show min g (N - j * g) = g
      rw [Nat.min_eq_left (by omega)]
    rw [hf1]
    show (⟨min g ((unsq1 x2).d0 - j * g), (unsq1 x2).d1, (unsq1 x2).d2, (unsq1 x2).dt,
      fun a b c => (unsq1 x2).val (j * g + a) b c⟩ : T3) = _
    rw [hmin]
    rfl
  -- stage 2: concatenate along dim 1
  have hcat1 : catDim1 ((List.range n).map f1) =
      some ⟨g, (((List.range n).map f1).map T3.d1).sum, C, xdt,
        catVal ((List.range n).map f1)⟩ :=
    catDim1_map_range n hn1 f1 g C (fun j _ => rfl) (fun j _ => rfl)
  have hsum1 : (((List.range n).map f1).map T3.d1).sum = n := by
    rw [List.map_map]
    show (((List.range n).map fun j => (1 : ℕ))).sum = n
    simp
  rw [hsum1] at hcat1
  set A : T3 := ⟨g, n, C, xdt, catVal ((List.range n).map f1)⟩ with hA
  -- stage 3: permute and broadcast-multiply with the unsqueezed masks
  have hmul : mulT3 (permute102 A) (maskT3 m2) =
      some ⟨n, g, C, DType.promote xdt mdt, fun i j k =>
        (permute102 A).val (bidx n i) (bidx g j) (bidx C k) *
        (maskT3 m2).val (bidx n i) (bidx 1 j) (bidx C k)⟩ :=
    mulT3_eq (permute102 A) (maskT3 m2) rfl rfl rfl
  set B : T3 := ⟨n, g, C, DType.promote xdt mdt, fun i j k =>
    (permute102 A).val (bidx n i) (bidx g j) (bidx C k) *
    (maskT3 m2).val (bidx n i) (bidx 1 j) (bidx C k)⟩ with hB
  -- stage 4: split into n single-row chunks
  set f2 : ℕ → T3 := fun j =>
    ⟨1, g, C, B.dt, fun a b c => B.val (j * 1 + a) b c⟩ with hf2
  have hsplit2 : splitDim0 1 B = some ((List.range n).map f2) := by
    rw [splitDim0, if_neg (by omega)]
    have hk2 : (B.d0 + 1 - 1) / 1 = n := by simp
    rw [hk2]
    congr 1
    apply List.map_congr_left
    intro j hj
    rw [List.mem_range] at hj
    have hmin : min 1 (B.d0 - j * 1) = 1 := by
      show min 1 (n - j * 1) = 1
      rw [Nat.min_eq_left (by omega)]
    rw [hf2]
    show (⟨min 1 (B.d0 - j * 1), B.d1, B.d2, B.dt,
      fun a b c => B.val (j * 1 + a) b c⟩ : T3) = _
    rw [hmin]
  -- stage 5: concatenate back along dim 1
  have hcat2 : catDim1 ((List.range n).map f2) =
      some ⟨1, (((List.range n).map f2).map T3.d1).sum, C, B.dt,
        catVal ((List.range n).map f2)⟩ :=
    catDim1_map_range n hn1 f2 1 C (fun j _ => rfl) (fun j _ => rfl)
  have hsum2 : (((List.range n).map f2).map T3.d1).sum = n * g := by
    rw [List.map_map]
    show (((List.range n).map fun j => g)).sum = n * g
    simp [Nat.mul_comm]
  rw [hsum2] at hcat2
  -- assemble the pipeline
  have hpipe : forwardPipe1 n m2 x2 =
      some (squeeze0 ⟨1, n * g, C, B.dt, catVal ((List.range n).map f2)⟩).tofloat := by
    rw [forwardPipe1, if_neg hn]
    rw [hsplit1, Option.some_bind, hcat1, Option.some_bind]
    rw [hmul, Option.some_bind]
    rw [hsplit2, Option.some_bind, hcat2, Option.some_bind]
  refine ⟨_, hpipe, ?_, ?_, ?_, ?_⟩
  · show n * g = N
    omega
  · rfl
  · rfl
  · intro j hj k hk
    show catVal ((List.range n).map f2) 0 j k = xval j k * mval (j / g) k
    have hjg : j / g < n := by
      rw [Nat.div_lt_iff_lt_mul hg]
      omega
    have hlen : j < ((List.range n).map f2).length * g := by
      simp only [List.length_map, List.length_range]
      omega
    rw [catVal_uniform hg ((List.range n).map f2)
      (by
        intro t ht
        simp only [List.mem_map, List.mem_range] at ht
        obtain ⟨i, _, rfl⟩ := ht
        rfl) 0 j k hlen]
    rw [getD_map_range f2 default hjg]
    show B.val (j / g * 1 + 0) (j % g) k = xval j k * mval (j / g) k
    rw [Nat.mul_one, Nat.add_zero]
    show (permute102 A).val (bidx n (j / g)) (bidx g (j % g)) (bidx C k) *
      (maskT3 m2).val (bidx n (j / g)) (bidx 1 (j % g)) (bidx C k) =
      xval j k * mval (j / g) k
    have hmod : j % g < g := Nat.mod_lt _ hg
    rw [bidx_of_lt hmod, bidx_of_lt hjg, bidx_of_lt hk]
    have hmask : (maskT3 m2).val (j / g) (bidx 1 (j % g)) k = mval (j / g) k := rfl
    rw [hmask]
    congr 1
    show catVal ((List.range n).map f1) (j % g) (j / g) k = xval j k
    have hlen1 : j / g < ((List.range n).map f1).length * 1 := by
      simp only [List.length_map, List.length_range, Nat.mul_one]
      exact hjg
    rw [catVal_uniform Nat.one_pos ((List.range n).map f1)
      (by
        intro t ht
        simp only [List.mem_map, List.mem_range] at ht
        obtain ⟨i, _, rfl⟩ := ht
        rfl) (j % g) (j / g) k hlen1]
    rw [Nat.div_one, Nat.mod_one, getD_map_range f1 default hjg]
    show xval (j / g * g + j % g) k = xval j k
    rw [Nat.div_add_mod']

theorem forwardPipe1_none (n : ℕ) (m x : T2) (hm0 : m.d0 = n) (h : ¬ n ∣ x.d0) :
    forwardPipe1 n m x = none := by
  obtain ⟨N, C, xdt, xval⟩ := x
  obtain ⟨md0, md1, mdt, mval⟩ := m
  simp only at hm0 h ⊢
  have hm0' := hm0.symm
  subst hm0'
  by_cases hn : n = 0
  · rw [forwardPipe1, if_pos hn]
  rw [forwardPipe1, if_neg hn]
  have hN : N ≠ 0 := by
    rintro rfl
    exact h (Nat.dvd_zero n)
  set x2 : T2 := ⟨N, C, xdt, xval⟩ with hx2
  set m2 : T2 := ⟨n, md1, mdt, mval⟩ with hm2
  set g := N / n with hgdef
  by_cases hg0 : g = 0
  · have hsplit : splitDim0 g (unsq1 x2) = none := by
      rw [splitDim0, if_pos hg0]
      rw [if_neg]
      exact hN
    rw [hsplit, Option.none_bind]
  have hg : 0 < g := Nat.pos_of_ne_zero hg0
  by_cases hgd : g ∣ N
  · -- equal chunks of size g, but their count differs from n
    obtain ⟨k, hk0⟩ := hgd
    have hk : N = k * g := by rw [hk0, Nat.mul_comm]
    have hk1 : 0 < k := by
      rcases Nat.eq_zero_or_pos k with h0 | h0
      · rw [h0, Nat.zero_mul] at hk; omega
      · exact h0
    set f1 : ℕ → T3 := fun j =>
      ⟨g, 1, C, xdt, fun a b c => xval (j * g + a) c⟩ with hf1
    have hsplit1 : splitDim0 g (unsq1 x2) = some ((List.range k).map f1) := by
      rw [splitDim0, if_neg (by omega)]
      have hkk : ((unsq1 x2).d0 + g - 1) / g = k := by
        show (N + g - 1) / g = k
        have h1 : N + g - 1 = g * k + (g - 1) := by
          rw [Nat.mul_comm g k]
          omega
        rw [h1, Nat.mul_add_div hg, Nat.div_eq_of_lt (by omega), Nat.add_zero]
      rw [hkk]
      congr 1
      apply List.map_congr_left
      intro j hj
      rw [List.mem_range] at hj
      have hjg : j * g + g ≤ k * g := by
        have h2 : (j + 1) * g ≤ k * g := Nat.mul_le_mul_right g (by omega)
        rw [Nat.add_one_mul] at h2
        exact h2
      have hmin : min g ((unsq1 x2).d0 - j * g) = g := by
        show min g (N - j * g) = g
        rw [Nat.min_eq_left (by omega)]
      rw [hf1]
      show (⟨min g ((unsq1 x2).d0 - j * g), (unsq1 x2).d1, (unsq1 x2).d2, (unsq1 x2).dt,
        fun a b c => (unsq1 x2).val (j * g + a) b c⟩ : T3) = _
      rw [hmin]
      rfl
    have hcat1 : catDim1 ((List.range k).map f1) =
        some ⟨g, (((List.range k).map f1).map T3.d1).sum, C, xdt,
          catVal ((List.range k).map f1)⟩ :=
      catDim1_map_range k hk1 f1 g C (fun j _ => rfl) (fun j _ => rfl)
    have hsum1 : (((List.range k).map f1).map T3.d1).sum = k := by
      rw [List.map_map]
      show (((List.range k).map fun j => (1 : ℕ))).sum = k
      simp
    rw [hsum1] at hcat1
    set A : T3 := ⟨g, k, C, xdt, catVal ((List.range k).map f1)⟩ with hA
    have hn1 : n ≠ 1 := by
      rintro rfl
      exact h (Nat.one_dvd N)
    have hkn : k ≠ n := by
      rintro rfl
      exact h ⟨g, by omega⟩
    have hknot1 : k ≠ 1 := by
      rintro rfl
      rw [Nat.one_mul] at hk
      have hlt : N / n < N := Nat.div_lt_self (by omega) (by omega)
      omega
    have hbdim : bdim k n = none := by
      simp [bdim, hkn, hknot1, hn1]
    have hmul : mulT3 (permute102 A) (maskT3 m2) = none :=
      mulT3_none_d0 (permute102 A) (maskT3 m2) hbdim
    rw [hsplit1, Option.some_bind, hcat1, Option.some_bind, hmul, Option.none_bind]
  · -- unequal chunk sizes: the first concatenation fails
    set F : ℕ → T3 := fun j =>
      ⟨min g ((unsq1 x2).d0 - j * g), (unsq1 x2).d1, (unsq1 x2).d2, (unsq1 x2).dt,
        fun a b c => (unsq1 x2).val (j * g + a) b c⟩ with hF
    set K := ((unsq1 x2).d0 + g - 1) / g with hK
    have hsplit1 : splitDim0 g (unsq1 x2) = some ((List.range K).map F) := by
      rw [splitDim0, if_neg (by omega)]
    have hgN : g ≤ N := Nat.div_le_self N n
    have hgNe : g ≠ N := by
      intro heq
      apply hgd
      rw [heq]
    have hqr : g * (N / g) + N % g = N := Nat.div_add_mod N g
    have hqr2 : N / g * g + N % g = N := by
      rw [Nat.mul_comm] at hqr
      exact hqr
    have hrne : N % g ≠ 0 := by
      intro h0
      exact hgd (Nat.dvd_iff_mod_eq_zero.mpr h0)
    have hrg : N % g < g := Nat.mod_lt _ hg
    have hKval : K = (N + g - 1) / g := rfl
    have hK1 : 1 ≤ K := by
      rw [hKval, Nat.le_div_iff_mul_le hg]
      omega
    have hqK : N / g < K := by
      rw [hKval, Nat.lt_iff_add_one_le, Nat.le_div_iff_mul_le hg]
      rw [Nat.add_one_mul]
      omega
    have hhead : ((List.range K).map F).headD default = F 0 := headD_map_range F default hK1
    have hh0 : (F 0).d0 = g := by
      show min g ((unsq1 x2).d0 - 0 * g) = g
      show min g (N - 0 * g) = g
      rw [Nat.zero_mul, Nat.sub_zero, Nat.min_eq_left hgN]
    have hq0 : (F (N / g)).d0 = N % g := by
      show min g (N - N / g * g) = N % g
      have hsub : N - N / g * g = N % g := by omega
      rw [hsub, Nat.min_eq_right (by omega)]
    have hcatnone : catDim1 ((List.range K).map F) = none := by
      rw [catDim1]
      have hne : ((List.range K).map F).isEmpty = false := by
        simp [List.isEmpty_eq_false, List.map_eq_nil_iff, List.range_eq_nil]
        omega
      rw [hne]
      simp only [Bool.false_eq_true, if_false]
      rw [if_neg]
      intro hall
      have hmem : F (N / g) ∈ (List.range K).map F :=
        List.mem_map_of_mem F (List.mem_range.mpr hqK)
      have hcontr := (hall (F (N / g)) hmem).1
      rw [hq0, hhead, hh0] at hcontr
      omega
    rw [hsplit1, Option.some_bind, hcatnone, Option.none_bind]

theorem catValR5_uniform {w : ℕ} (hw : 0 < w) :
    ∀ (ts : List T5), (∀ t ∈ ts, t.d1 = w) → ∀ (a b c h' w' : ℕ), b < ts.length * w →
      catValR5 ts a b c h' w' = (ts.getD (b / w) default).val a (b % w) c h' w' := by
  intro ts
  induction ts with
  | nil => intro _ a b c h' w' hb; simp at hb
  | cons t ts ih =>
    intro hts a b c h' w' hb
    have ht : t.d1 = w := hts t (by simp)
    by_cases hbw : b < w
    · rw [catValR5, if_pos (by omega)]
      rw [Nat.div_eq_of_lt hbw, Nat.mod_eq_of_lt hbw]
      simp
    · rw [catValR5, if_neg (by omega)]
      have hw' : w ≤ b := by omega
      have hb' : b - w < ts.length * w := by
        simp only [List.length_cons, Nat.succ_mul] at hb
        omega
      rw [ht, ih (fun t' ht' => hts t' (by simp [ht'])) a (b - w) c h' w' hb']
      have hdiv : b / w = (b - w) / w + 1 := Nat.div_eq_sub_div hw hw'
      have hmod : b % w = (b - w) % w := Nat.mod_eq_sub_mod hw'
      rw [hdiv, hmod]
      simp

theorem catDim1R5_map_range (k : ℕ) (hk : 0 < k) (f : ℕ → T5) (d0 d2 d3 d4 : ℕ)
    (h0 : ∀ j < k, (f j).d0 = d0) (h2 : ∀ j < k, (f j).d2 = d2)
    (h3 : ∀ j < k, (f j).d3 = d3) (h4 : ∀ j < k, (f j).d4 = d4) :
    catDim1R5 ((List.range k).map f) =
      some ⟨d0, (((List.range k).map f).map T5.d1).sum, d2, d3, d4, (f 0).dt,
        catValR5 ((List.range k).map f)⟩ := by
  have hne : ((List.range k).map f).isEmpty = false := by
    simp [List.isEmpty_eq_false, List.map_eq_nil_iff, List.range_eq_nil]
    omega
  have hhead : ((List.range k).map f).headD default = f 0 := headD_map_range f default hk
  rw [catDim1R5, hne]
  simp only [Bool.false_eq_true, if_false, hhead]
  rw [if_pos]
  · simp [h0 0 hk, h2 0 hk, h3 0 hk, h4 0 hk]
  · intro s hs
    simp only [List.mem_map, List.mem_range] at hs
    obtain ⟨j, hj, rfl⟩ := hs
    simp [h0 j hj, h2 j hj, h3 j hj, h4 j hj, h0 0 hk, h2 0 hk, h3 0 hk, h4 0 hk]

theorem mulT5_eq (x y : T5) (h0 : y.d0 = x.d0) (h1 : y.d1 = 1) (h2 : y.d2 = x.d2)
    (h3 : y.d3 = 1) (h4 : y.d4 = 1) :
    mulT5 x y = some ⟨x.d0, x.d1, x.d2, x.d3, x.d4, DType.promote x.dt y.dt,
      fun i j k h' w' =>
        x.val (bidx x.d0 i) (bidx x.d1 j) (bidx x.d2 k) (bidx x.d3 h') (bidx x.d4 w') *
        y.val (bidx y.d0 i) (bidx y.d1 j) (bidx y.d2 k) (bidx y.d3 h') (bidx y.d4 w')⟩ := by
  rw [mulT5, h0, h1, h2, h3, h4, bdim_self, Option.some_bind, bdim_one_right,
    Option.some_bind, bdim_self, Option.some_bind, bdim_one_right, Option.some_bind,
    bdim_one_right, Option.some_bind]

theorem forwardPipe2_some (n : ℕ) (m : T2) (x : T4)
    (hN : 1 ≤ x.d0) (hdvd : n ∣ x.d0) (hm0 : m.d0 = n) (hm1 : m.d1 = x.d1) :
    ∃ out, forwardPipe2 n m x = some out ∧ out.d0 = x.d0 ∧ out.d1 = x.d1 ∧
      out.d2 = x.d2 ∧ out.d3 = x.d3 ∧ out.dt = DType.f32 ∧
      ∀ j, j < x.d0 → ∀ k, k < x.d1 → ∀ hh, hh < x.d2 → ∀ ww, ww < x.d3 →
        out.val j k hh ww = x.val j k hh ww * m.val (j / (x.d0 / n)) k := by
  obtain ⟨N, C, H, W, xdt, xval⟩ := x
  obtain ⟨md0, md1, mdt, mval⟩ := m
  simp only at hN hdvd hm0 hm1 ⊢
  have hm0' := hm0.symm
  have hm1' := hm1.symm
  subst hm0' hm1'
  have hn : n ≠ 0 := by
    rintro rfl
    have := Nat.eq_zero_of_zero_dvd hdvd
    omega
  set g := N / n with hgdef
  have hNg : N = n * g := (Nat.mul_div_cancel' hdvd).symm
  have hNg2 : N = g * n := by rw [hNg, Nat.mul_comm]
  have hg : 0 < g := by
    rcases Nat.eq_zero_or_pos g with h | h
    · rw [h, Nat.mul_zero] at hNg; omega
    · exact h
  have hn1 : 0 < n := by omega
  set x2 : T4 := ⟨N, C, H, W, xdt, xval⟩ with hx2
  set m2 : T2 := ⟨n, C, mdt, mval⟩ with hm2
  -- stage 1: split the unsqueezed input into n chunks of g rows each
  set f1 : ℕ → T5 := fun j =>
    ⟨g, 1, C, H, W, xdt, fun a b c hh ww => xval (j * g + a) c hh ww⟩ with hf1
  have hsplit1 : splitDim0R5 g (unsq1R4 x2) = some ((List.range n).map f1) := by
    rw [splitDim0R5, if_neg (by omega)]
    have hk1 : ((unsq1R4 x2).d0 + g - 1) / g = n := by
      show (N + g - 1) / g = n
      have h1 : N + g - 1 = g * n + (g - 1) := by omega
      rw [h1, Nat.mul_add_div hg, Nat.div_eq_of_lt (by omega), Nat.add_zero]
    rw [hk1]
    congr 1
    apply List.map_congr_left
    intro j hj
    rw [List.mem_range] at hj
    have hjg : j * g + g ≤ n * g := by
      have h2 : (j + 1) * g ≤ n * g := Nat.mul_le_mul_right g (by omega)
      rw [Nat.add_one_mul] at h2
      exact h2
    have hmin : min g ((unsq1R4 x2).d0 - j * g) = g := by
      show min g (N - j * g) = g
      rw [Nat.min_eq_left (by omega)]
    rw [hf1]
    show (⟨min g ((unsq1R4 x2).d0 - j * g), (unsq1R4 x2).d1, (unsq1R4 x2).d2,
      (unsq1R4 x2).d3, (unsq1R4 x2).d4, (unsq1R4 x2).dt,
      fun a b c hh ww => (unsq1R4 x2).val (j * g + a) b c hh ww⟩ : T5) = _
    rw [hmin]
    rfl
  -- stage 2: concatenate along dim 1
  have hcat1 : catDim1R5 ((List.range n).map f1) =
      some ⟨g, (((List.range n).map f1).map T5.d1).sum, C, H, W, xdt,
        catValR5 ((List.range n).map f1)⟩ :=
    catDim1R5_map_range n hn1 f1 g C H W (fun j _ => rfl) (fun j _ => rfl)
      (fun j _ => rfl) (fun j _ => rfl)
  have hsum1 : (((List.range n).map f1).map T5.d1).sum = n := by
    rw [List.map_map]
    show (((List.range n).map fun j => (1 : ℕ))).sum = n
    simp
  rw [hsum1] at hcat1
  set A : T5 := ⟨g, n, C, H, W, xdt, catValR5 ((List.range n).map f1)⟩ with hA
  -- stage 3: permute and broadcast-multiply with the unsqueezed masks
  have hmul : mulT5 (permute10234 A) (maskT5 m2) =
      some ⟨n, g, C, H, W, DType.promote xdt mdt, fun i j k hh ww =>
        (permute10234 A).val (bidx n i) (bidx g j) (bidx C k) (bidx H hh) (bidx W ww) *
        (maskT5 m2).val (bidx n i) (bidx 1 j) (bidx C k) (bidx 1 hh) (bidx 1 ww)⟩ :=
    mulT5_eq (permute10234 A) (maskT5 m2) rfl rfl rfl rfl rfl
  set B : T5 := ⟨n, g, C, H, W, DType.promote xdt mdt, fun i j k hh ww =>
    (permute10234 A).val (bidx n i) (bidx g j) (bidx C k) (bidx H hh) (bidx W ww) *
    (maskT5 m2).val (bidx n i) (bidx 1 j) (bidx C k) (bidx 1 hh) (bidx 1 ww)⟩ with hB
  -- stage 4: split into n single-row chunks
  set f2 : ℕ → T5 := fun j =>
    ⟨1, g, C, H, W, B.dt, fun a b c hh ww => B.val (j * 1 + a) b c hh ww⟩ with hf2
  have hsplit2 : splitDim0R5 1 B = some ((List.range n).map f2) := by
    rw [splitDim0R5, if_neg (by omega)]
    have hk2 : (B.d0 + 1 - 1) / 1 = n := by simp
    rw [hk2]
    congr 1
    apply List.map_congr_left
    intro j hj
    rw [List.mem_range] at hj
    have hmin : min 1 (B.d0 - j * 1) = 1 := by
      show min 1 (n - j * 1) = 1
      rw [Nat.min_eq_left (by omega)]
    rw [hf2]
    show (⟨min 1 (B.d0 - j * 1), B.d1, B.d2, B.d3, B.d4, B.dt,
      fun a b c hh ww => B.val (j * 1 + a) b c hh ww⟩ : T5) = _
    rw [hmin]
  -- stage 5: concatenate back along dim 1
  have hcat2 : catDim1R5 ((List.range n).map f2) =
      some ⟨1, (((List.range n).map f2).map T5.d1).sum, C, H, W, B.dt,
        catValR5 ((List.range n).map f2)⟩ :=
    catDim1R5_map_range n hn1 f2 1 C H W (fun j _ => rfl) (fun j _ => rfl)
      (fun j _ => rfl) (fun j _ => rfl)
  have hsum2 : (((List.range n).map f2).map T5.d1).sum = n * g := by
    rw [List.map_map]
    show (((List.range n).map fun j => g)).sum = n * g
    simp [Nat.mul_comm]
  rw [hsum2] at hcat2
  -- assemble the pipeline
  have hpipe : forwardPipe2 n m2 x2 =
      some (squeeze0R5 ⟨1, n * g, C, H, W, B.dt,
        catValR5 ((List.range n).map f2)⟩).tofloat := by
    rw [forwardPipe2, if_neg hn]
    rw [hsplit1, Option.some_bind, hcat1, Option.some_bind]
    rw [hmul, Option.some_bind]
    rw [hsplit2, Option.some_bind, hcat2, Option.some_bind]
  refine ⟨_, hpipe, ?_, ?_, ?_, ?_, ?_, ?_⟩
  · show n * g = N
    omega
  · rfl
  · rfl
  · rfl
  · rfl
  · intro j hj k hk hh hhlt ww hwlt
    show catValR5 ((List.range n).map f2) 0 j k hh ww =
      xval j k hh ww * mval (j / g) k
    have hjg : j / g < n := by
      rw [Nat.div_lt_iff_lt_mul hg]
      omega
    have hlen : j < ((List.range n).map f2).length * g := by
      simp only [List.length_map, List.length_range]
      omega
    rw [catValR5_uniform hg ((List.range n).map f2)
      (by
        intro t ht
        simp only [List.mem_map, List.mem_range] at ht
        obtain ⟨i, _, rfl⟩ := ht
        rfl) 0 j k hh ww hlen]
    rw [getD_map_range f2 default hjg]
    show B.val (j / g * 1 + 0) (j % g) k hh ww = xval j k hh ww * mval (j / g) k
    rw [Nat.mul_one, Nat.add_zero]
    show (permute10234 A).val (bidx n (j / g)) (bidx g (j % g)) (bidx C k)
        (bidx H hh) (bidx W ww) *
      (maskT5 m2).val (bidx n (j / g)) (bidx 1 (j % g)) (bidx C k)
        (bidx 1 hh) (bidx 1 ww) = xval j k hh ww * mval (j / g) k
    have hmod : j % g < g := Nat.mod_lt _ hg
    rw [bidx_of_lt hmod, bidx_of_lt hjg, bidx_of_lt hk, bidx_of_lt hhlt, bidx_of_lt hwlt]
    have hmask : (maskT5 m2).val (j / g) (bidx 1 (j % g)) k (bidx 1 hh) (bidx 1 ww) =
      mval (j / g) k := rfl
    rw [hmask]
    congr 1
    show catValR5 ((List.range n).map f1) (j % g) (j / g) k hh ww = xval j k hh ww
    have hlen1 : j / g < ((List.range n).map f1).length * 1 := by
      simp only [List.length_map, List.length_range, Nat.mul_one]
      exact hjg
    rw [catValR5_uniform Nat.one_pos ((List.range n).map f1)
      (by
        intro t ht
        simp only [List.mem_map, List.mem_range] at ht
        obtain ⟨i, _, rfl⟩ := ht
        rfl) (j % g) (j / g) k hh ww hlen1]
    rw [Nat.div_one, Nat.mod_one, getD_map_range f1 default hjg]
    show xval (j / g * g + j % g) k hh ww = xval j k hh ww
    rw [Nat.div_add_mod']

theorem orRow_length (a b : List ℚ) : (orRow a b).length = min a.length b.length := by
  simp [orRow]

theorem orRow_getD_ne_zero {a b : List ℚ} {k : ℕ} (hka : k < a.length)
    (hkb : k < b.length) (hb : b.getD k 0 ≠ 0) : (orRow a b).getD k 0 ≠ 0 := by
  have hk : k < (orRow a b).length := by
    rw [orRow_length]
    omega
  rw [List.getD_eq_getElem _ _ hk]
  rw [List.getD_eq_getElem _ _ hkb] at hb
  simp only [orRow, List.getElem_zipWith]
  rw [if_pos (Or.inr hb)]
  norm_num

theorem nestedGo_length (prev : List ℚ) (rs : List (List ℚ)) :
    (nestedGo prev rs).length = rs.length := by
  induction rs generalizing prev with
  | nil => rfl
  | cons r rs ih => simp [nestedGo, ih]

theorem nestedMasks_length (raw : List (List ℚ)) :
    (nestedMasks raw).length = raw.length := by
  cases raw with
  | nil => rfl
  | cons r rs => simp [nestedMasks, nestedGo_length]

theorem nestedMasks_headD (raw : List (List ℚ)) :
    (nestedMasks raw).headD [] = raw.headD [] := by
  cases raw <;> rfl

theorem nestedGo_consec (ch : ℕ) :
    ∀ (rs : List (List ℚ)) (prev : List ℚ), prev.length = ch →
      (∀ r ∈ rs, r.length = ch) →
      ∀ i k, i + 1 < (prev :: nestedGo prev rs).length → k < ch →
        ((prev :: nestedGo prev rs).getD i []).getD k 0 ≠ 0 →
        ((prev :: nestedGo prev rs).getD (i + 1) []).getD k 0 ≠ 0 := by
  intro rs
  induction rs with
  | nil =>
    intro prev _ _ i k hi
    simp [nestedGo] at hi
  | cons r rs ih =>
    intro prev hprev hrs i k hi hk hne
    have hr : r.length = ch := hrs r (by simp)
    have hor : (orRow r prev).length = ch := by
      rw [orRow_length, hr, hprev]
      simp
    match i with
    | 0 =>
      show ((prev :: nestedGo prev (r :: rs)).getD 1 []).getD k 0 ≠ 0
      show ((nestedGo prev (r :: rs)).getD 0 []).getD k 0 ≠ 0
      show ((orRow r prev :: nestedGo (orRow r prev) rs).getD 0 []).getD k 0 ≠ 0
      simp only [List.getD_cons_zero]
      exact orRow_getD_ne_zero (by omega) (by omega) hne
    | Nat.succ i =>
      have hlen : i + 1 < (orRow r prev :: nestedGo (orRow r prev) rs).length := by
        simp only [List.length_cons, nestedGo_length] at hi ⊢
        simp [nestedGo] at hi
        omega
      have hprev' : ((orRow r prev :: nestedGo (orRow r prev) rs).getD i []).getD k 0 ≠ 0 := by
        exact hne
      exact ih (orRow r prev) hor (fun r' h' => hrs r' (by simp [h'])) i k hlen hk hprev'

theorem nestedMasks_consec (ch : ℕ) (raw : List (List ℚ))
    (hr : ∀ r ∈ raw, r.length = ch) :
    ∀ i k, i + 1 < (nestedMasks raw).length → k < ch →
      ((nestedMasks raw).getD i []).getD k 0 ≠ 0 →
      ((nestedMasks raw).getD (i + 1) []).getD k 0 ≠ 0 := by
  cases raw with
  | nil =>
    intro i k hi
    simp [nestedMasks] at hi
  | cons r rs =>
    intro i k hi hk hne
    exact nestedGo_consec ch rs r (hr r (by simp))
      (fun r' h' => hr r' (by simp [h'])) i k hi hk hne

theorem orRow_self (r : List ℚ) (h : ∀ q ∈ r, q = 1) : orRow r r = r := by
  induction r with
  | nil => rfl
  | cons q qs ih =>
    have hq : q = 1 := h q (by simp)
    subst hq
    simp only [orRow, List.zipWith_cons_cons]
    rw [if_pos (Or.inl (by norm_num))]
    exact congrArg (List.cons 1) (ih (fun q' h' => h q' (by simp [h'])))

theorem nestedGo_ones (r : List ℚ) (hrr : orRow r r = r) :
    ∀ n', nestedGo r (List.replicate n' r) = List.replicate n' r := by
  intro n'
  induction n' with
  | zero => rfl
  | succ n' ih => simp [nestedGo, List.replicate_succ, hrr, ih]

theorem nestedMasks_ones (n ch : ℕ) :
    nestedMasks (onesMatrix n ch) = onesMatrix n ch := by
  cases n with
  | zero => rfl
  | succ n' =>
    have hrr : orRow (List.replicate ch (1 : ℚ)) (List.replicate ch 1) =
        List.replicate ch 1 :=
      orRow_self _ (fun q hq => (List.eq_of_mem_replicate hq))
    show nestedMasks (List.replicate (n' + 1) (List.replicate ch 1)) = _
    rw [List.replicate_succ, nestedMasks]
    rw [nestedGo_ones _ hrr]
    rfl

theorem nestedGo_recur (rs : List (List ℚ)) :
    ∀ (prev : List ℚ) i, i < rs.length →
      (prev :: nestedGo prev rs).getD (i + 1) [] =
        orRow (rs.getD i []) ((prev :: nestedGo prev rs).getD i []) := by
  induction rs with
  | nil => intro prev i hi; simp at hi
  | cons r rs ih =>
    intro prev i hi
    match i with
    | 0 => rfl
    | Nat.succ i =>
      simp only [List.getD_cons_succ]
      exact ih (orRow r prev) i (by simpa using hi)

theorem nestedMasks_recur (raw : List (List ℚ)) :
    ∀ i, i + 1 < raw.length →
      (nestedMasks raw).getD (i + 1) [] =
        orRow (raw.getD (i + 1) []) ((nestedMasks raw).getD i []) := by
  cases raw with
  | nil => intro i hi; simp at hi
  | cons r rs =>
    intro i hi
    simp only [List.getD_cons_succ]
    exact nestedGo_recur rs r i (by simpa using hi)

theorem headD_mem {α : Type _} {l : List α} (d : α) (h : l ≠ []) : l.headD d ∈ l := by
  cases l with
  | nil => exact absurd rfl h
  | cons a as => simp


/-- Claim C1: for a fixed 1D MaskSet with `n` mask rows of width `C` and an
input of shape `[N, C]` with `n ∣ N` (and a nonempty batch), the forward pass
returns an `[N, C]` tensor whose row `j` is the input row `j` multiplied
elementwise by mask row `j / (N / n)`, the groups being contiguous and in
order. -/
theorem masksembles1D_forward_group_multiply (ms : Masksembles1D) (x : T2)
    (hlen : ms.masks.length = ms.n)
    (hrect : ∀ r ∈ ms.masks, r.length = x.d1)
    (hN : 1 ≤ x.d0) (hdvd : ms.n ∣ x.d0) :
    ∃ out, ms.forward x = some out ∧ out.d0 = x.d0 ∧ out.d1 = x.d1 ∧
      ∀ j, j < x.d0 → ∀ k, k < x.d1 →
        out.val j k = x.val j k * (ms.masks.getD (j / (x.d0 / ms.n)) []).getD k 0 := by
  have hne : ms.masks ≠ [] := by
    intro h0
    rw [h0] at hlen
    have hn0 : ms.n = 0 := by simpa using hlen.symm
    rw [hn0] at hdvd
    have := Nat.eq_zero_of_zero_dvd hdvd
    omega
  have hm0 : (ofMatrix ms.masks DType.f64).d0 = ms.n := hlen
  have hm1 : (ofMatrix ms.masks DType.f64).d1 = x.d1 :=
    hrect (ms.masks.headD []) (headD_mem [] hne)
  obtain ⟨out, h1, h2, h3, _, h5⟩ :=
    forwardPipe1_some ms.n (ofMatrix ms.masks DType.f64) x hN hdvd hm0 hm1
  exact ⟨out, h1, h2, h3, h5⟩

/-- Witness for C1 at the example fixed in the spec: `n = 2`, `N = 4`,
`C = 2`, masks `[[1,0],[0,1]]`, all-ones input; the output matrix is
`[[1,0],[1,0],[0,1],[0,1]]`. -/
theorem masksembles1D_forward_group_multiply_witness :
    (exMasks1.masks.length = exMasks1.n ∧ (∀ r ∈ exMasks1.masks, r.length = exInput1.d1) ∧
      1 ≤ exInput1.d0 ∧ exMasks1.n ∣ exInput1.d0) ∧
    (∃ out, exMasks1.forward exInput1 = some out ∧ out.d0 = exInput1.d0 ∧
      out.d1 = exInput1.d1 ∧
      ∀ j, j < exInput1.d0 → ∀ k, k < exInput1.d1 →
        out.val j k = exInput1.val j k *
          (exMasks1.masks.getD (j / (exInput1.d0 / exMasks1.n)) []).getD k 0) ∧
    exMasks1.forwardMatrix exInput1 = some [[1, 0], [1, 0], [0, 1], [0, 1]] :=
  ⟨⟨by decide, by decide, by decide, by decide⟩,
    masksembles1D_forward_group_multiply exMasks1 exInput1
      (by decide) (by decide) (by decide) (by decide),
    by
      simp +decide [exMasks1, exInput1, Masksembles1D.forwardMatrix,
        Masksembles1D.forward, forwardPipe1, splitDim0, catDim1, catVal, mulT3,
        bdim, bidx, permute102, unsq1, maskT3, squeeze0, T2.tofloat, T2.toMatrix,
        ofMatrix, List.range_succ]⟩

/-- Claim C2: the rank-2 forward pass uses the same contiguous group
partition as rank 1 and broadcasts each mask value over the spatial
dimensions: `out[j,c,h,w] = in[j,c,h,w] * masks[j / (N/n)][c]`; in
particular a zero mask entry for channel `c` zeroes every spatial position of
that channel throughout the group. -/
theorem masksembles2D_forward_group_multiply (ms : Masksembles2D) (x : T4)
    (hlen : ms.masks.length = ms.n)
    (hrect : ∀ r ∈ ms.masks, r.length = x.d1)
    (hN : 1 ≤ x.d0) (hdvd : ms.n ∣ x.d0) :
    ∃ out, ms.forward x = some out ∧ out.d0 = x.d0 ∧ out.d1 = x.d1 ∧
      out.d2 = x.d2 ∧ out.d3 = x.d3 ∧
      (∀ j, j < x.d0 → ∀ c, c < x.d1 → ∀ hh, hh < x.d2 → ∀ ww, ww < x.d3 →
        out.val j c hh ww = x.val j c hh ww *
          (ms.masks.getD (j / (x.d0 / ms.n)) []).getD c 0) ∧
      (∀ j, j < x.d0 → ∀ c, c < x.d1 →
        (ms.masks.getD (j / (x.d0 / ms.n)) []).getD c 0 = 0 →
        ∀ hh, hh < x.d2 → ∀ ww, ww < x.d3 → out.val j c hh ww = 0) := by
  have hne : ms.masks ≠ [] := by
    intro h0
    rw [h0] at hlen
    have hn0 : ms.n = 0 := by simpa using hlen.symm
    rw [hn0] at hdvd
    have := Nat.eq_zero_of_zero_dvd hdvd
    omega
  have hm0 : (ofMatrix ms.masks DType.f64).d0 = ms.n := hlen
  have hm1 : (ofMatrix ms.masks DType.f64).d1 = x.d1 :=
    hrect (ms.masks.headD []) (headD_mem [] hne)
  obtain ⟨out, h1, h2, h3, h4, h5, _, h7⟩ :=
    forwardPipe2_some ms.n (ofMatrix ms.masks DType.f64) x hN hdvd hm0 hm1
  refine ⟨out, h1, h2, h3, h4, h5, h7, ?_⟩
  intro j hj c hc hzero hh hhlt ww hwlt
  rw [h7 j hj c hc hh hhlt ww hwlt]
  show x.val j c hh ww * (ofMatrix ms.masks DType.f64).val (j / (x.d0 / ms.n)) c = 0
  show x.val j c hh ww * (ms.masks.getD (j / (x.d0 / ms.n)) []).getD c 0 = 0
  rw [hzero, mul_zero]

/-- Witness for C2: `n = 2`, batch `2`, one channel, `H = W = 3`, masks
`[[0],[1]]`: the first group is zeroed at every spatial position of its only
channel, the second group passes through. -/
theorem masksembles2D_forward_group_multiply_witness :
    (exMasks2.masks.length = exMasks2.n ∧ (∀ r ∈ exMasks2.masks, r.length = exInput2.d1) ∧
      1 ≤ exInput2.d0 ∧ exMasks2.n ∣ exInput2.d0) ∧
    (∃ out, exMasks2.forward exInput2 = some out ∧ out.d0 = exInput2.d0 ∧
      out.d1 = exInput2.d1 ∧ out.d2 = exInput2.d2 ∧ out.d3 = exInput2.d3 ∧
      (∀ j, j < exInput2.d0 → ∀ c, c < exInput2.d1 →
        ∀ hh, hh < exInput2.d2 → ∀ ww, ww < exInput2.d3 →
        out.val j c hh ww = exInput2.val j c hh ww *
          (exMasks2.masks.getD (j / (exInput2.d0 / exMasks2.n)) []).getD c 0) ∧
      (∀ j, j < exInput2.d0 → ∀ c, c < exInput2.d1 →
        (exMasks2.masks.getD (j / (exInput2.d0 / exMasks2.n)) []).getD c 0 = 0 →
        ∀ hh, hh < exInput2.d2 → ∀ ww, ww < exInput2.d3 → out.val j c hh ww = 0)) :=
  ⟨⟨by decide, by decide, by decide, by decide⟩,
    masksembles2D_forward_group_multiply exMasks2 exInput2
      (by decide) (by decide) (by decide) (by decide)⟩

/-- Claim C5: applying a MaskSet (here the rank-1 forward) to an input whose
batch size is not divisible by `n` fails: no output tensor is produced (the
torch pipeline raises; the error outcome is modelled as `none`). -/
theorem masksembles1D_forward_nondivisible_fails (ms : Masksembles1D) (x : T2)
    (hlen : ms.masks.length = ms.n) (h : ¬ ms.n ∣ x.d0) :
    ms.forward x = none :=
  forwardPipe1_none ms.n (ofMatrix ms.masks DType.f64) x hlen h

/-- Witness for C5: `n = 2`, batch `3`. -/
theorem masksembles1D_forward_nondivisible_fails_witness :
    (exMasks1.masks.length = exMasks1.n ∧ ¬ exMasks1.n ∣ exInput1odd.d0) ∧
    exMasks1.forward exInput1odd = none :=
  ⟨⟨by decide, by decide⟩,
    masksembles1D_forward_nondivisible_fails exMasks1 exInput1odd (by decide) (by decide)⟩

/-- Counterexample to the dtype clause of C3: a valid float64 input (`n = 1`,
batch 1, one channel, mask `[[1]]`) comes back float32 — the final
`.float()` call casts to float32 unconditionally, so the output dtype is not
the dtype of the input. -/
theorem masksembles_forward_dtype_counterexample :
    (exMasksTiny.forward exInputF64).map T2.dt ≠ some exInputF64.dt := by decide

/-- Amended C3: for every valid pair the output exists and its shape equals
the shape of the input exactly (both ranks), but the output dtype is always
float32 (it equals the dtype of the input only when that is float32). -/
theorem masksembles_forward_shape_dtype (ms : Masksembles1D) (x : T2)
    (ms2 : Masksembles2D) (x4 : T4) :
    (ms.masks.length = ms.n → (∀ r ∈ ms.masks, r.length = x.d1) →
      1 ≤ x.d0 → ms.n ∣ x.d0 →
      ∃ out, ms.forward x = some out ∧ out.d0 = x.d0 ∧ out.d1 = x.d1 ∧
        out.dt = DType.f32) ∧
    (ms2.masks.length = ms2.n → (∀ r ∈ ms2.masks, r.length = x4.d1) →
      1 ≤ x4.d0 → ms2.n ∣ x4.d0 →
      ∃ out, ms2.forward x4 = some out ∧ out.d0 = x4.d0 ∧ out.d1 = x4.d1 ∧
        out.d2 = x4.d2 ∧ out.d3 = x4.d3 ∧ out.dt = DType.f32) := by
  constructor
  · intro hlen hrect hN hdvd
    have hne : ms.masks ≠ [] := by
      intro h0
      rw [h0] at hlen
      have hn0 : ms.n = 0 := by simpa using hlen.symm
      rw [hn0] at hdvd
      have := Nat.eq_zero_of_zero_dvd hdvd
      omega
    obtain ⟨out, h1, h2, h3, h4, _⟩ :=
      forwardPipe1_some ms.n (ofMatrix ms.masks DType.f64) x hN hdvd hlen
        (hrect (ms.masks.headD []) (headD_mem [] hne))
    exact ⟨out, h1, h2, h3, h4⟩
  · intro hlen hrect hN hdvd
    have hne : ms2.masks ≠ [] := by
      intro h0
      rw [h0] at hlen
      have hn0 : ms2.n = 0 := by simpa using hlen.symm
      rw [hn0] at hdvd
      have := Nat.eq_zero_of_zero_dvd hdvd
      omega
    obtain ⟨out, h1, h2, h3, h4, h5, h6, _⟩ :=
      forwardPipe2_some ms2.n (ofMatrix ms2.masks DType.f64) x4 hN hdvd hlen
        (hrect (ms2.masks.headD []) (headD_mem [] hne))
    exact ⟨out, h1, h2, h3, h4, h5, h6⟩

/-- Witness for amended C3 at concrete valid inputs of both ranks. -/
theorem masksembles_forward_shape_dtype_witness :
    (∃ out, exMasks1.forward exInput1 = some out ∧ out.d0 = exInput1.d0 ∧
      out.d1 = exInput1.d1 ∧ out.dt = DType.f32) ∧
    (∃ out, exMasks2.forward exInput2 = some out ∧ out.d0 = exInput2.d0 ∧
      out.d1 = exInput2.d1 ∧ out.d2 = exInput2.d2 ∧ out.d3 = exInput2.d3 ∧
      out.dt = DType.f32) :=
  ⟨(masksembles_forward_shape_dtype exMasks1 exInput1 exMasks2 exInput2).1
      (by decide) (by decide) (by decide) (by decide),
    (masksembles_forward_shape_dtype exMasks1 exInput1 exMasks2 exInput2).2
      (by decide) (by decide) (by decide) (by decide)⟩

/-- Claim C4: after `generate=true, nested=true` construction the stored
masks satisfy the in-place loop recurrence
`masks[i+1] = logical_or(raw[i+1], masks[i])` (rows updated in increasing
index order, each OR taken against the already-updated previous row), hence
every channel active in mask `i` is active in mask `i+1`, and mask 0 is the
raw generated mask 0 unchanged (the raw matrix of the fixed 1D variant is
the all-ones bypass at `scale = 1` and the output of the generator
otherwise; the fixed 2D variant always uses the output of the generator). -/
theorem masksembles_nested_monotone (channels n : ℕ) (scale : ℚ)
    (gen : ℕ → ℕ → ℚ → List (List ℚ))
    (hrect : ∀ r ∈ gen channels n scale, r.length = channels) :
    (∀ i, i + 1 < (Masksembles1D.init channels n scale gen true true).masks.length →
      (Masksembles1D.init channels n scale gen true true).masks.getD (i + 1) [] =
        orRow ((if scale = 1 then onesMatrix n channels
            else gen channels n scale).getD (i + 1) [])
          ((Masksembles1D.init channels n scale gen true true).masks.getD i [])) ∧
    (∀ i k, i + 1 < (Masksembles1D.init channels n scale gen true true).masks.length →
      k < channels →
      ((Masksembles1D.init channels n scale gen true true).masks.getD i []).getD k 0 ≠ 0 →
      ((Masksembles1D.init channels n scale gen true true).masks.getD (i + 1) []).getD k 0 ≠ 0) ∧
    (Masksembles1D.init channels n scale gen true true).masks.headD [] =
      (if scale = 1 then onesMatrix n channels else gen channels n scale).headD [] ∧
    (∀ i, i + 1 < (Masksembles2D.init channels n scale gen true true).masks.length →
      (Masksembles2D.init channels n scale gen true true).masks.getD (i + 1) [] =
        orRow ((gen channels n scale).getD (i + 1) [])
          ((Masksembles2D.init channels n scale gen true true).masks.getD i [])) ∧
    (∀ i k, i + 1 < (Masksembles2D.init channels n scale gen true true).masks.length →
      k < channels →
      ((Masksembles2D.init channels n scale gen true true).masks.getD i []).getD k 0 ≠ 0 →
      ((Masksembles2D.init channels n scale gen true true).masks.getD (i + 1) []).getD k 0 ≠ 0) ∧
    (Masksembles2D.init channels n scale gen true true).masks.headD [] =
      (gen channels n scale).headD [] := by
  have hraw1 : ∀ r ∈ (if scale = 1 then onesMatrix n channels
      else gen channels n scale), r.length = channels := by
    by_cases hs : scale = 1
    · rw [if_pos hs]
      intro r hr
      rw [List.eq_of_mem_replicate hr]
      simp
    · rw [if_neg hs]
      exact hrect
  refine ⟨?_, ?_, ?_, ?_, ?_, ?_⟩
  · intro i hi
    have hi' : i + 1 < (nestedMasks (if scale = 1 then onesMatrix n channels
        else gen channels n scale)).length := hi
    rw [nestedMasks_length] at hi'
    exact nestedMasks_recur _ i hi'
  · intro i k hi hk hne
    exact nestedMasks_consec channels _ hraw1 i k hi hk hne
  · exact nestedMasks_headD _
  · intro i hi
    have hi' : i + 1 < (nestedMasks (gen channels n scale)).length := hi
    rw [nestedMasks_length] at hi'
    exact nestedMasks_recur _ i hi'
  · intro i k hi hk hne
    exact nestedMasks_consec channels _ hrect i k hi hk hne
  · exact nestedMasks_headD _

/-- Witness for C4 with generator output `[[1,0],[0,0],[0,1]]` (channels 2,
n 3): nesting yields `[[1,0],[1,0],[1,1]]`, monotone with mask 0 unchanged. -/
theorem masksembles_nested_monotone_witness :
    (∀ r ∈ exGenNested 2 3 2, r.length = 2) ∧
    ((∀ i, i + 1 < (Masksembles1D.init 2 3 2 exGenNested true true).masks.length →
      (Masksembles1D.init 2 3 2 exGenNested true true).masks.getD (i + 1) [] =
        orRow ((if (2 : ℚ) = 1 then onesMatrix 3 2 else exGenNested 2 3 2).getD (i + 1) [])
          ((Masksembles1D.init 2 3 2 exGenNested true true).masks.getD i [])) ∧
    (∀ i k, i + 1 < (Masksembles1D.init 2 3 2 exGenNested true true).masks.length →
      k < 2 →
      ((Masksembles1D.init 2 3 2 exGenNested true true).masks.getD i []).getD k 0 ≠ 0 →
      ((Masksembles1D.init 2 3 2 exGenNested true true).masks.getD (i + 1) []).getD k 0 ≠ 0) ∧
    (Masksembles1D.init 2 3 2 exGenNested true true).masks.headD [] =
      (if (2 : ℚ) = 1 then onesMatrix 3 2 else exGenNested 2 3 2).headD [] ∧
    (∀ i, i + 1 < (Masksembles2D.init 2 3 2 exGenNested true true).masks.length →
      (Masksembles2D.init 2 3 2 exGenNested true true).masks.getD (i + 1) [] =
        orRow ((exGenNested 2 3 2).getD (i + 1) [])
          ((Masksembles2D.init 2 3 2 exGenNested true true).masks.getD i [])) ∧
    (∀ i k, i + 1 < (Masksembles2D.init 2 3 2 exGenNested true true).masks.length →
      k < 2 →
      ((Masksembles2D.init 2 3 2 exGenNested true true).masks.getD i []).getD k 0 ≠ 0 →
      ((Masksembles2D.init 2 3 2 exGenNested true true).masks.getD (i + 1) []).getD k 0 ≠ 0) ∧
    (Masksembles2D.init 2 3 2 exGenNested true true).masks.headD [] =
      (exGenNested 2 3 2).headD []) ∧
    (Masksembles1D.init 2 3 2 exGenNested true true).masks = [[1, 0], [1, 0], [1, 1]] :=
  ⟨by decide, masksembles_nested_monotone 2 3 2 exGenNested (by decide), by decide⟩

/-- Counterexample to C6: construction with `n = 0` (and likewise
`channels = 0`) does not raise anything — the fixed-variant constructors run
to completion and return a fully constructed MaskSet with an empty /
zero-width mask matrix, with or without generation. -/
theorem masksembles_init_counterexample :
    Masksembles1D.init 4 0 1 exGen false false = ⟨4, 0, 1, []⟩ ∧
    Masksembles1D.init 0 3 1 exGen false false = ⟨0, 3, 1, zerosMatrix 3 0⟩ ∧
    Masksembles1D.init 4 0 1 exGen true false = ⟨4, 0, 1, []⟩ :=
  ⟨rfl, rfl, rfl⟩

/-- Amended C6: the constructors perform no parameter validation.  The fixed
variants always construct a MaskSet with `n` mask rows (also for `n = 0` or
`channels = 0`); the dynamic variants succeed exactly when `scale ≠ 0` and —
in the non-generating mode — the computed `expected_size` is nonnegative
(their only failure modes are the Python ZeroDivisionError from `1 / scale`
and the numpy rejection of a negative dimension, neither depending on `n`,
`channels`, or the shape returned by the generator). -/
theorem masksembles_init_no_validation (channels n : ℕ) (scale : ℚ)
    (gen : ℕ → ℕ → ℚ → List (List ℚ)) (gm nf : Bool) :
    (Masksembles1D.init channels n scale gen false nf).masks.length = n ∧
    (Masksembles2D.init channels n scale gen false nf).masks.length = n ∧
    ((∃ ms, Masksembles1DDynamicSize.init channels n scale gen gm = .ok ms) ↔
      scale ≠ 0 ∧ (gm = false → 0 ≤ expectedSize channels n scale)) ∧
    ((∃ ms, Masksembles2DDynamicSize.init channels n scale gen gm = .ok ms) ↔
      scale ≠ 0 ∧ (gm = false → 0 ≤ expectedSize channels n scale)) := by
  refine ⟨by simp [Masksembles1D.init, zerosMatrix],
    by simp [Masksembles2D.init, zerosMatrix], ?_, ?_⟩
  · by_cases hs : scale = 0
    · simp [Masksembles1DDynamicSize.init, hs]
    · cases gm
      · by_cases he : expectedSize channels n scale < 0
        · simp [Masksembles1DDynamicSize.init, hs, he]
        · simp [Masksembles1DDynamicSize.init, hs, he]
          omega
      · simp [Masksembles1DDynamicSize.init, hs]
  · by_cases hs : scale = 0
    · simp [Masksembles2DDynamicSize.init, hs]
    · cases gm
      · by_cases he : expectedSize channels n scale < 0
        · simp [Masksembles2DDynamicSize.init, hs, he]
        · simp [Masksembles2DDynamicSize.init, hs, he]
          omega
      · simp [Masksembles2DDynamicSize.init, hs]

/-- Witness for amended C6: `n = 0` constructs (length-0 mask list), and a
dynamic variant with `scale = 1` constructs successfully. -/
theorem masksembles_init_no_validation_witness :
    (Masksembles1D.init 4 0 1 exGen false false).masks.length = 0 ∧
    (∃ ms, Masksembles1DDynamicSize.init 3 2 1 exGen false = .ok ms) :=
  ⟨(masksembles_init_no_validation 4 0 1 exGen false false).1,
    (masksembles_init_no_validation 3 2 1 exGen false false).2.2.1.mpr
      ⟨by norm_num, fun _ => by norm_num [expectedSize, pyInt]⟩⟩

/-- Claim C7: constructing the fixed 1D variant with `generate=true` and
`scale = 1` skips the generator and stores all-ones `[n, channels]` masks, no
matter what the generator would return (and whether nesting is requested,
since nesting fixes all-ones); the fixed 2D variant has no such bypass — at
`scale = 1` its masks are exactly the output of the generator. -/
theorem masksembles1D_scale1_bypass (channels n : ℕ)
    (gen : ℕ → ℕ → ℚ → List (List ℚ)) (nf : Bool) :
    (Masksembles1D.init channels n 1 gen true nf).masks = onesMatrix n channels ∧
    (Masksembles2D.init channels n 1 gen true false).masks = gen channels n 1 := by
  constructor
  · show (if nf then nestedMasks (onesMatrix n channels) else onesMatrix n channels) = _
    cases nf
    · rfl
    · exact nestedMasks_ones n channels
  · rfl

/-- Claim C8: with `generate=false` every variant stores an all-zeros mask
matrix of the declared shape (`[n, channels]` fixed, `[n, expected_size]`
dynamic), ignoring the nested flag and not invoking the generator; for the
dynamic variants this needs the computed size to be a valid (nonnegative)
numpy dimension and `scale ≠ 0`. -/
theorem masksembles_generate_false_zeros (channels n : ℕ) (scale : ℚ)
    (gen : ℕ → ℕ → ℚ → List (List ℚ)) (nf : Bool)
    (hs : scale ≠ 0) (hes : 0 ≤ expectedSize channels n scale) :
    (Masksembles1D.init channels n scale gen false nf).masks = zerosMatrix n channels ∧
    (Masksembles2D.init channels n scale gen false nf).masks = zerosMatrix n channels ∧
    Masksembles1DDynamicSize.init channels n scale gen false =
      .ok ⟨channels, n, scale, expectedSize channels n scale,
        zerosMatrix n (expectedSize channels n scale).toNat⟩ ∧
    Masksembles2DDynamicSize.init channels n scale gen false =
      .ok ⟨channels, n, scale, expectedSize channels n scale,
        zerosMatrix n (expectedSize channels n scale).toNat⟩ := by
  refine ⟨rfl, rfl, ?_, ?_⟩
  · rw [Masksembles1DDynamicSize.init, if_neg hs]
    show (if expectedSize channels n scale < 0 then _ else _) = _
    rw [if_neg (by omega)]
  · rw [Masksembles2DDynamicSize.init, if_neg hs]
    show (if expectedSize channels n scale < 0 then _ else _) = _
    rw [if_neg (by omega)]

/-- Witness for C8 at `channels = 3`, `n = 2`, `scale = 1`
(`expected_size = 3`). -/
theorem masksembles_generate_false_zeros_witness :
    (Masksembles1D.init 3 2 1 exGen false true).masks = zerosMatrix 2 3 ∧
    (Masksembles2D.init 3 2 1 exGen false true).masks = zerosMatrix 2 3 ∧
    Masksembles1DDynamicSize.init 3 2 1 exGen false =
      .ok ⟨3, 2, 1, expectedSize 3 2 1, zerosMatrix 2 (expectedSize 3 2 1).toNat⟩ ∧
    Masksembles2DDynamicSize.init 3 2 1 exGen false =
      .ok ⟨3, 2, 1, expectedSize 3 2 1, zerosMatrix 2 (expectedSize 3 2 1).toNat⟩ :=
  masksembles_generate_false_zeros 3 2 1 exGen true (by norm_num)
    (by norm_num [expectedSize, pyInt])

/-- Counterexample to the failure clause of C9: a dynamic-size variant
constructed with `scale = 1` (which is `≤ 1`) does not fail — it succeeds
with `expected_size = channels = 3`. -/
theorem masksembles_dynamic_scale1_counterexample :
    Masksembles1DDynamicSize.init 3 2 1 exGen false =
      .ok ⟨3, 2, 1, 3, zerosMatrix 2 3⟩ := by
  have hes : expectedSize 3 2 1 = 3 := by norm_num [expectedSize, pyInt]
  rw [Masksembles1DDynamicSize.init, if_neg (by norm_num)]
  show (if expectedSize 3 2 1 < 0 then _ else _) = _
  rw [if_neg (by omega)]
  rw [hes]
  rfl

/-- Amended C9: the dynamic-size constructors compute
`expected_size = int(channels * scale * (1 - (1 - 1/scale) ** n))` with no
guard on `scale`; for every `scale ≥ 1` the closed form is nonnegative, the
truncation coincides with the floor of the claim, and construction succeeds
(no error is raised; in particular `scale = 1` is accepted). -/
theorem masksembles_dynamic_expected_size (channels n : ℕ) (scale : ℚ)
    (gen : ℕ → ℕ → ℚ → List (List ℚ)) (hs : 1 ≤ scale) :
    expectedSize channels n scale =
      ⌊(channels : ℚ) * scale * (1 - (1 - 1 / scale) ^ n)⌋ ∧
    ∃ ms, Masksembles1DDynamicSize.init channels n scale gen false = .ok ms ∧
      ms.expected_size = expectedSize channels n scale ∧
      ms.masks = zerosMatrix n (expectedSize channels n scale).toNat := by
  have hs0 : (0 : ℚ) < scale := by linarith
  have ht0 : (0 : ℚ) ≤ 1 - 1 / scale := by
    have h1 : 1 / scale ≤ 1 := by
      rw [div_le_one hs0]
      exact hs
    linarith
  have ht1 : 1 - 1 / scale ≤ 1 := by
    have h2 : 0 < 1 / scale := by positivity
    linarith
  have hpow : (1 - 1 / scale) ^ n ≤ 1 := pow_le_one₀ ht0 ht1
  have hval : 0 ≤ (channels : ℚ) * scale * (1 - (1 - 1 / scale) ^ n) := by
    apply mul_nonneg
    · positivity
    · linarith
  have hfloor : expectedSize channels n scale =
      ⌊(channels : ℚ) * scale * (1 - (1 - 1 / scale) ^ n)⌋ := by
    rw [expectedSize, pyInt, if_pos hval]
  have hes : 0 ≤ expectedSize channels n scale := by
    rw [hfloor]
    exact Int.floor_nonneg.mpr hval
  refine ⟨hfloor, ⟨⟨channels, n, scale, expectedSize channels n scale,
    zerosMatrix n (expectedSize channels n scale).toNat⟩, ?_, rfl, rfl⟩⟩
  rw [Masksembles1DDynamicSize.init, if_neg (by positivity)]
  show (if expectedSize channels n scale < 0 then _ else _) = _
  rw [if_neg (by omega)]

/-- Witness for amended C9 at `channels = 4`, `n = 3`, `scale = 2`. -/
theorem masksembles_dynamic_expected_size_witness :
    (1 : ℚ) ≤ 2 ∧
    (expectedSize 4 3 2 = ⌊(4 : ℚ) * 2 * (1 - (1 - 1 / 2) ^ 3)⌋ ∧
      ∃ ms, Masksembles1DDynamicSize.init 4 3 2 exGen false = .ok ms ∧
        ms.expected_size = expectedSize 4 3 2 ∧
        ms.masks = zerosMatrix 3 (expectedSize 4 3 2).toNat) :=
  ⟨by norm_num, masksembles_dynamic_expected_size 4 3 2 exGen (by norm_num)⟩

/-- Claim C10: for `n ≥ 1`, `channels ≥ 1`, constructing a dynamic-size
variant with `scale = 1` and `generate_masks = false` succeeds: the closed
form evaluates exactly to `channels` (since `1 - 1/scale = 0`), and the
stored masks are an all-zero `[n, channels]` matrix. -/
theorem masksembles_dynamic_scale1_size (channels n : ℕ)
    (gen : ℕ → ℕ → ℚ → List (List ℚ)) (hn : 1 ≤ n) (hch : 1 ≤ channels) :
    expectedSize channels n 1 = channels ∧
    Masksembles1DDynamicSize.init channels n 1 gen false =
      .ok ⟨channels, n, 1, (channels : ℤ), zerosMatrix n channels⟩ ∧
    Masksembles2DDynamicSize.init channels n 1 gen false =
      .ok ⟨channels, n, 1, (channels : ℤ), zerosMatrix n channels⟩ := by
  have hes : expectedSize channels n 1 = channels := by
    rw [expectedSize, pyInt]
    have h0 : (1 : ℚ) - 1 / 1 = 0 := by norm_num
    rw [h0, zero_pow (by omega : n ≠ 0)]
    rw [if_pos (by positivity)]
    norm_num
  refine ⟨hes, ?_, ?_⟩
  · rw [Masksembles1DDynamicSize.init, if_neg (by norm_num)]
    show (if expectedSize channels n 1 < 0 then _ else _) = _
    rw [if_neg (by omega)]
    rw [hes, Int.toNat_natCast]
  · rw [Masksembles2DDynamicSize.init, if_neg (by norm_num)]
    show (if expectedSize channels n 1 < 0 then _ else _) = _
    rw [if_neg (by omega)]
    rw [hes, Int.toNat_natCast]

/-- Witness for C10 at `channels = 5`, `n = 3`. -/
theorem masksembles_dynamic_scale1_size_witness :
    1 ≤ 3 ∧ 1 ≤ 5 ∧
    (expectedSize 5 3 1 = 5 ∧
      Masksembles1DDynamicSize.init 5 3 1 exGen false =
        .ok ⟨5, 3, 1, (5 : ℤ), zerosMatrix 3 5⟩ ∧
      Masksembles2DDynamicSize.init 5 3 1 exGen false =
        .ok ⟨5, 3, 1, (5 : ℤ), zerosMatrix 3 5⟩) :=
  ⟨by decide, by decide, masksembles_dynamic_scale1_size 5 3 exGen (by decide) (by decide)⟩
